import Mathlib

/-!
Shallow embedding of the CM-cutting library `lib/cmcut.py`.

Numbers (Python floats used for timings and durations) are modelled as
rationals `ℚ`; frame indices and counters as `Nat`.  Python lists become
Lean lists.  The one place where Python object identity matters —
`DurationSecUnits.append_duration` aliases `self.durations_sec` and
mutates it in place — is modelled by returning the post-call state of the
receiver's list alongside the newly constructed object's list, and the
scan of `construct_cm_sections` threads that state explicitly.
Fallible operations (out-of-range indexing, subscripting `None`) are
modelled with `Except PyErr`.
-/

/-- Python exception kinds relevant to the embedded code paths:
`indexError` for out-of-range list indexing (`silent_sections[0]` on an
empty list), `typeError` for subscripting a non-sequence (`section[0]`
when `section` is `None`). -/
inductive PyErr where
  | indexError : PyErr
  | typeError : PyErr
deriving DecidableEq, Repr

deriving instance DecidableEq for Except

/-- Model of `SilentSection` (cmcut.py lines 10-51): start/end timing of a silent
scene in seconds, plus the frame-to-second conversion factor.  The
constructor's derived fields are `start_sec = start_frame/frame_per_sec`
and `end_sec = end_frame/frame_per_sec`. -/
structure SilentSection where
  start_sec : ℚ
  end_sec : ℚ
  frame_per_sec : ℚ
deriving DecidableEq, Repr

instance : Inhabited SilentSection := ⟨⟨0, 0, 0⟩⟩

/-- Model of `SilentSection.duration_sec` (lines 49-51). -/
def SilentSection.duration_sec (s : SilentSection) : ℚ :=
  s.end_sec - s.start_sec

/-- Model of `SilentSection.is_cm_divider_candidate` (lines 53-76).  `units` is
the `durations_sec` list of the `DurationSecUnits` argument; Python's
`durations_sec[-1]` is the last element of that list.  The outer loop
breaks (returning `False`) as soon as
`largest_duration_unit_sec + margin_sec <= duration_sec`; otherwise the
inner loop returns `True` on the first unit with
`unit < duration_sec <= unit + margin_sec`. -/
def SilentSection.is_cm_divider_candidate (s : SilentSection) :
    List SilentSection → List ℚ → ℚ → Bool
  | [], _, _ => false
  | sec :: rest, units, margin_sec =>
    let duration_sec := sec.end_sec - s.start_sec
    let largest_duration_unit_sec := units.getLastD 0
    if largest_duration_unit_sec + margin_sec ≤ duration_sec then
      false
    else if units.any (fun u => decide (u < duration_sec) && decide (duration_sec ≤ u + margin_sec)) then
      true
    else
      s.is_cm_divider_candidate rest units margin_sec

/-- Keys of a `NominalCMStructure.composition` dict (lines 115-162). -/
inductive CMKey where
  | cm : CMKey
  | scene : CMKey
  | monolithic_cm : CMKey
deriving DecidableEq, Repr

/-- Model of `NominalCMStructure` (lines 115-162).  A Python dict preserves
insertion order, so the composition is a key-value list with distinct
keys; `nominal_duration` is the sum of the values computed by the
constructor and `margin_sec` the per-structure tolerance. -/
structure NominalCMStructure where
  composition : List (CMKey × ℚ)
  nominal_duration : ℚ
  margin_sec : ℚ
deriving DecidableEq, Repr

/-- Sum of the composition's values, as accumulated by the constructor
loop (line 156). -/
def compositionSum (comp : List (CMKey × ℚ)) : ℚ :=
  comp.foldl (fun acc kv => acc + kv.2) 0

/-- Build a `NominalCMStructure` the way `__init__` does: store the
composition, its value sum as `nominal_duration`, and the margin. -/
def mkNominalCMStructure (comp : List (CMKey × ℚ)) (margin_sec : ℚ) : NominalCMStructure :=
  ⟨comp, compositionSum comp, margin_sec⟩

/-- The validation performed by `NominalCMStructure.__init__`
(lines 134-161) on an already-dict-shaped composition: at most two
entries, not a lone `scene` entry, nonempty, only the three known keys,
positive values, positive margin; dict keys are distinct. -/
def validComposition (comp : List (CMKey × ℚ)) (margin_sec : ℚ) : Prop :=
  comp.length ≤ 2 ∧
  ¬(comp.length = 1 ∧ (comp.headD (CMKey.cm, 0)).1 = CMKey.scene) ∧
  comp ≠ [] ∧
  (∀ kv ∈ comp, 0 < kv.2) ∧
  List.Pairwise (fun a b : CMKey × ℚ => a.1 ≠ b.1) comp ∧
  0 < margin_sec

instance (comp : List (CMKey × ℚ)) (m : ℚ) : Decidable (validComposition comp m) := by
  unfold validComposition; infer_instance

/-- Inner loop of `NominalCMStructure.get_actual_cm_section`
(lines 175-182): scan the composition with a counter; on the first
`scene` key, shrink the left edge if it is the first entry, otherwise
shrink the right edge.  Falling off the loop returns Python `None`,
modelled as `none`. -/
def actualCMLoop : List (CMKey × ℚ) → Nat → ℚ → ℚ → Option (ℚ × ℚ)
  | [], _, _, _ => none
  | kv :: rest, counter, last_cm_divider_end_sec, next_cm_divider_start_sec =>
    if kv.1 = CMKey.scene then
      if counter = 0 then
        some (last_cm_divider_end_sec + kv.2, next_cm_divider_start_sec)
      else
        some (last_cm_divider_end_sec, next_cm_divider_start_sec - kv.2)
    else
      actualCMLoop rest (counter + 1) last_cm_divider_end_sec next_cm_divider_start_sec

/-- Model of `NominalCMStructure.get_actual_cm_section` (lines 163-182). -/
def NominalCMStructure.get_actual_cm_section (st : NominalCMStructure)
    (last_cm_divider_end_sec next_cm_divider_start_sec : ℚ) : Option (ℚ × ℚ) :=
  if st.composition.length = 1 then
    some (last_cm_divider_end_sec, next_cm_divider_start_sec)
  else
    actualCMLoop st.composition 0 last_cm_divider_end_sec next_cm_divider_start_sec

/-- Model of `DurationSecUnits.__init__` (lines 190-206): seed `[15, 30]`, append
each not-yet-present supplied value in order, and sort ascending if any
values were supplied. -/
def durationSecUnitsInit (durations_sec : List ℚ) : List ℚ :=
  if durations_sec.length = 0 then
    [15, 30]
  else
    (durations_sec.foldl (fun acc v => if v ∈ acc then acc else acc ++ [v]) [15, 30]).mergeSort
      (fun a b => decide (a ≤ b))

/-- Model of `DurationSecUnits.append_duration` (lines 208-216).  The Python body
binds `durations = self.durations_sec` (an alias, not a copy) and calls
`durations.append(duration_sec)`, mutating the receiver, then returns a
new `DurationSecUnits` built from the sorted list.  The result is
`(new object's durations_sec, receiver's durations_sec after the call)`. -/
def append_duration (durations_sec : List ℚ) (duration_sec : ℚ) : List ℚ × List ℚ :=
  let durations := durations_sec ++ [duration_sec]
  let durations_sorted := durations.mergeSort (fun a b => decide (a ≤ b))
  (durationSecUnitsInit durations_sorted, durations)

/-- Constant `ProgramScenes.starting_range_sec` (line 234). -/
def starting_range_sec : ℚ := 5

/-- Constant `ProgramScenes.end_margin_sec` (line 235). -/
def end_margin_sec : ℚ := 1

/-- The `for section in cm_sections` loop of
`ProgramScenes.generate_scenes` (lines 445-447): accumulate
`(start_sec, section[0])` and move the cursor to `section[1]`; returns
the accumulated scenes and the final cursor. -/
def generateScenesLoop : ℚ → List (ℚ × ℚ) → List (ℚ × ℚ) → List (ℚ × ℚ) × ℚ
  | start_sec, [], scenes => (scenes, start_sec)
  | start_sec, sec :: rest, scenes =>
    generateScenesLoop sec.2 rest (scenes ++ [(start_sec, sec.1)])

/-- Model of `ProgramScenes.generate_scenes` (lines 426-452). -/
def generate_scenes (first_start_sec_candidate last_end_sec_candidate : ℚ)
    (cm_sections : List (ℚ × ℚ)) (last_scene_duration : ℚ) : List (ℚ × ℚ) :=
  let start_sec : ℚ := if first_start_sec_candidate < starting_range_sec then first_start_sec_candidate else 0
  let r := generateScenesLoop start_sec cm_sections []
  if last_scene_duration ≠ 0 then
    r.1 ++ [(r.2, r.2 + last_scene_duration + end_margin_sec)]
  else
    r.1 ++ [(r.2, last_end_sec_candidate)]

/-- C6: the three literal `generate_scenes` test cases from the spec and
`tests/test_program_scenes.py`, together with the two class constants
they depend on (`starting_range_sec = 5`, `end_margin_sec = 1`). -/
theorem claim_C6_generate_scenes_literal_cases :
    starting_range_sec = 5 ∧ end_margin_sec = 1 ∧
    generate_scenes 3 20 [(5, 10), (12, 15)] 5 = [(3, 5), (10, 12), (15, 21)] ∧
    generate_scenes 7 25 [(9, 12), (15, 20)] 0 = [(0, 9), (12, 15), (20, 25)] ∧
    generate_scenes 6 30 [(8, 12), (16, 22)] 7 = [(0, 8), (12, 16), (22, 30)] := by
  refine ⟨rfl, rfl, ?_, ?_, ?_⟩ <;> with_unfolding_all decide

/-- The stop condition of the divider classifier: a forward interval is
scanned (reached by the inner band test) precisely while its gap stays
below `largest unit + margin`; `List.takeWhile` with this predicate is
exactly the scanned prefix. -/
def scannedForward (s : SilentSection) (fs : List SilentSection) (units : List ℚ)
    (margin_sec : ℚ) : List SilentSection :=
  fs.takeWhile (fun sec => decide (sec.end_sec - s.start_sec < units.getLastD 0 + margin_sec))

/-- The classifier returns `true` iff some forward interval scanned
before the stop condition has its gap inside a half-open band
`(u, u + margin]` for some unit `u`. -/
theorem is_cm_divider_candidate_iff (s : SilentSection) (fs : List SilentSection)
    (U : List ℚ) (m : ℚ) :
    s.is_cm_divider_candidate fs U m = true ↔
      ∃ sec ∈ scannedForward s fs U m, ∃ u ∈ U,
        u < sec.end_sec - s.start_sec ∧ sec.end_sec - s.start_sec ≤ u + m := by
  induction fs with
  | nil => simp [SilentSection.is_cm_divider_candidate, scannedForward]
  | cons f rest ih =>
    rw [SilentSection.is_cm_divider_candidate]
    simp only [scannedForward] at ih ⊢
    by_cases hbreak : U.getLastD 0 + m ≤ f.end_sec - s.start_sec
    · have hpred : (decide (f.end_sec - s.start_sec < U.getLastD 0 + m)) = false :=
        decide_eq_false (not_lt.mpr hbreak)
      rw [if_pos hbreak]
      simp only [List.takeWhile_cons, hpred]
      simp
    · have hlt : f.end_sec - s.start_sec < U.getLastD 0 + m := lt_of_not_le hbreak
      have hpred : (decide (f.end_sec - s.start_sec < U.getLastD 0 + m)) = true :=
        decide_eq_true hlt
      rw [if_neg hbreak]
      simp only [List.takeWhile_cons, hpred, if_true]
      by_cases hmatch : ∃ u ∈ U, u < f.end_sec - s.start_sec ∧ f.end_sec - s.start_sec ≤ u + m
      · have hany : U.any (fun u => decide (u < f.end_sec - s.start_sec) &&
            decide (f.end_sec - s.start_sec ≤ u + m)) = true := by
          rcases hmatch with ⟨u, hu, h1, h2⟩
          exact List.any_eq_true.mpr ⟨u, hu, by simp [h1, h2]⟩
        rw [hany]
        simp only [if_true, true_iff]
        rcases hmatch with ⟨u, hu, h1, h2⟩
        exact ⟨f, List.mem_cons_self f _, u, hu, h1, h2⟩
      · have hany : U.any (fun u => decide (u < f.end_sec - s.start_sec) &&
            decide (f.end_sec - s.start_sec ≤ u + m)) = false := by
          rw [← Bool.not_eq_true, List.any_eq_true]
          intro ⟨u, hu, hb⟩
          simp only [Bool.and_eq_true, decide_eq_true_eq] at hb
          exact hmatch ⟨u, hu, hb.1, hb.2⟩
        rw [hany]
        simp only [Bool.false_eq_true, if_false, ih, List.mem_cons]
        constructor
        · rintro ⟨sec, hsec, hband⟩
          exact ⟨sec, Or.inr hsec, hband⟩
        · rintro ⟨sec, hsec | hsec, hband⟩
          · exact absurd (hsec ▸ hband) hmatch
          · exact ⟨sec, hsec, hband⟩

/-- Last element of a sorted list is an upper bound. -/
theorem getLastD_is_max (U : List ℚ) (hSorted : List.Sorted (· ≤ ·) U) :
    ∀ u ∈ U, u ≤ U.getLastD 0 := by
  induction U with
  | nil => simp
  | cons a rest ih =>
    intro u hu
    rcases List.mem_cons.mp hu with h | h
    · subst h
      cases rest with
      | nil => simp
      | cons b rest' =>
        have hab : u ≤ b := (List.sorted_cons.mp hSorted).1 b (by simp)
        have := ih (List.sorted_cons.mp hSorted).2 b (by simp)
        simpa using le_trans hab this
    · cases rest with
      | nil => simp at h
      | cons b rest' =>
        simpa using ih (List.sorted_cons.mp hSorted).2 u h

/-- C1: for a non-empty sorted unit set `U` (whose last element is thus
`max(U)`) and margin `m > 0`, `is_cm_divider_candidate` returns `true`
iff some forward interval scanned before the stop condition
(`gap ≥ max(U) + m`) has its gap `g` inside `u < g ≤ u + m` for some
unit `u`; a gap exactly equal to `u` fails the strict lower bound while
a gap exactly equal to `u + m` satisfies the inclusive upper bound. -/
theorem claim_C1_divider_band (s : SilentSection) (fs : List SilentSection)
    (U : List ℚ) (m : ℚ) (hU : U ≠ []) (hSorted : List.Sorted (· ≤ ·) U) (hm : 0 < m) :
    (∀ u ∈ U, u ≤ U.getLastD 0) ∧
    (s.is_cm_divider_candidate fs U m = true ↔
      ∃ sec ∈ scannedForward s fs U m, ∃ u ∈ U,
        u < sec.end_sec - s.start_sec ∧ sec.end_sec - s.start_sec ≤ u + m) :=
  ⟨getLastD_is_max U hSorted, is_cm_divider_candidate_iff s fs U m⟩

/-- Witness for C1 at the concrete input of
`tests/test_silent_section.py` scaled to integers: target `(0, 1)`,
forward intervals `(15, 16)` and `(30, 31)`, units `[15, 30]`,
margin `2`. -/
theorem claim_C1_divider_band_witness :
    (([15, 30] : List ℚ) ≠ [] ∧ List.Sorted (· ≤ ·) [(15 : ℚ), 30] ∧ (0 : ℚ) < 2) ∧
    ((∀ u ∈ [(15 : ℚ), 30], u ≤ [(15 : ℚ), 30].getLastD 0) ∧
    (SilentSection.is_cm_divider_candidate ⟨0, 1, 1⟩ [⟨15, 16, 1⟩, ⟨30, 31, 1⟩] [15, 30] 2 = true ↔
      ∃ sec ∈ scannedForward ⟨0, 1, 1⟩ [⟨15, 16, 1⟩, ⟨30, 31, 1⟩] [15, 30] 2, ∃ u ∈ [(15 : ℚ), 30],
        u < sec.end_sec - SilentSection.start_sec ⟨0, 1, 1⟩ ∧
        sec.end_sec - SilentSection.start_sec ⟨0, 1, 1⟩ ≤ u + 2)) :=
  ⟨⟨by decide, by with_unfolding_all decide, by with_unfolding_all decide⟩,
    claim_C1_divider_band ⟨0, 1, 1⟩ [⟨15, 16, 1⟩, ⟨30, 31, 1⟩] [15, 30] 2
      (by decide) (by with_unfolding_all decide) (by with_unfolding_all decide)⟩

/-- The scan loop of `ProgramScenes.extract_silent_sections`
(lines 320-335), at the frame level: walk the loudness values with the
current frame index, the length of the open zero run
(`silent_duration`), the previous value (`last_loudness`, initially
`-1`), the start frame of the open run and the accumulated emitted
`(start_frame, end_frame)` pairs.  A run closes at the first non-zero
frame and is emitted when its length strictly exceeds the threshold; a
trailing open run is dropped when the list ends. -/
def extractAux : List ℚ → Nat → Nat → ℚ → Nat → Nat → List (Nat × Nat) → List (Nat × Nat)
  | [], _, _, _, _, _, silent_sections => silent_sections
  | loudness :: rest, frame_index, silent_duration, last_loudness, start_frame_index,
      duration_frame_threshold, silent_sections =>
    if loudness = 0 then
      let start_frame_index' := if last_loudness ≠ 0 then frame_index else start_frame_index
      extractAux rest (frame_index + 1) (silent_duration + 1) loudness start_frame_index'
        duration_frame_threshold silent_sections
    else
      let silent_sections' :=
        if silent_duration > 0 then
          if silent_duration > duration_frame_threshold then
            silent_sections ++ [(start_frame_index, frame_index)]
          else silent_sections
        else silent_sections
      extractAux rest (frame_index + 1) 0 loudness start_frame_index
        duration_frame_threshold silent_sections'

/-- Frame-level result of `ProgramScenes.extract_silent_sections`: the
emitted `(start_frame_index, end_frame_index)` pairs. -/
def extract_silent_frames (loudness_values : List ℚ) (duration_frame_threshold : Nat) :
    List (Nat × Nat) :=
  extractAux loudness_values 0 0 (-1) 0 duration_frame_threshold []

/-- Model of `ProgramScenes.extract_silent_sections` (lines 310-335): each
emitted frame pair becomes a `SilentSection` whose timings are the frame
indices divided by `frame_per_sec`. -/
def extract_silent_sections (loudness_values : List ℚ) (duration_frame_threshold : Nat)
    (frame_per_sec : ℚ) : List SilentSection :=
  (extract_silent_frames loudness_values duration_frame_threshold).map
    (fun p => ⟨(p.1 : ℚ) / frame_per_sec, (p.2 : ℚ) / frame_per_sec, frame_per_sec⟩)

/-- Proof-side restatement of the scan: same closed runs, but with the
run start reconstructed as `i - dur` instead of carried state. -/
def closedRunsAux : List ℚ → Nat → Nat → Nat → List (Nat × Nat)
  | [], _, _, _ => []
  | v :: rest, i, dur, t =>
    if v = 0 then closedRunsAux rest (i + 1) (dur + 1) t
    else if dur > t then (i - dur, i) :: closedRunsAux rest (i + 1) 0 t
    else closedRunsAux rest (i + 1) 0 t

/-- The scan state satisfies: the open-run length determines whether the
previous value was zero, and the carried start frame is `i - dur`; under
that invariant the scan produces exactly the closed runs. -/
theorem extractAux_eq_closedRunsAux (rest : List ℚ) :
    ∀ i dur last start t acc, (dur = 0 → last ≠ 0) → (dur > 0 → last = 0) →
      (dur > 0 → start + dur = i) →
      extractAux rest i dur last start t acc = acc ++ closedRunsAux rest i dur t := by
  induction rest with
  | nil => intro i dur last start t acc _ _ _; simp [extractAux, closedRunsAux]
  | cons v rest ih =>
    intro i dur last start t acc h1 h2 h3
    rw [extractAux, closedRunsAux]
    by_cases hv : v = 0
    · rw [if_pos hv, if_pos hv]
      rcases Nat.eq_zero_or_pos dur with hdur | hdur
    -- run opens at the current frame
      · have hlast : last ≠ 0 := h1 hdur
        rw [if_pos hlast]
        subst hdur
        exact ih (i + 1) 1 v i t acc (by simp [hv]) (fun _ => hv) (fun _ => by omega)
    -- run continues
      · have hlast : last = 0 := h2 hdur
        rw [if_neg (by simp [hlast])]
        exact ih (i + 1) (dur + 1) v start t acc (by omega) (fun _ => hv)
          (fun _ => by have := h3 hdur; omega)
    · rw [if_neg hv, if_neg hv]
      by_cases hthr : dur > t
      · have hdur : dur > 0 := by omega
        have hstart : start = i - dur := by have := h3 hdur; omega
        rw [if_pos hdur, if_pos hthr, if_pos hthr]
        rw [ih (i + 1) 0 v start t (acc ++ [(start, i)]) (fun _ => hv) (by omega) (by omega)]
        simp [hstart]
      · have hacc : (if dur > 0 then
            (if dur > t then acc ++ [(start, i)] else acc) else acc) = acc := by
          by_cases hdur : dur > 0
          · rw [if_pos hdur, if_neg hthr]
          · rw [if_neg hdur]
        rw [hacc, if_neg hthr]
        exact ih (i + 1) 0 v start t acc (fun _ => hv) (by omega) (by omega)

/-- On an all-zero tail the scan never closes a run, so nothing more is
emitted (the trailing silent run is dropped). -/
theorem closedRunsAux_all_zero (vals : List ℚ) (hz : ∀ v ∈ vals, v = 0) :
    ∀ i dur t, closedRunsAux vals i dur t = [] := by
  induction vals with
  | nil => intro i dur t; rfl
  | cons v rest ih =>
    intro i dur t
    rw [closedRunsAux, if_pos (hz v (by simp))]
    exact ih (fun w hw => hz w (by simp [hw])) (i + 1) (dur + 1) t

/-- Segment decomposition: a block of zeros followed by a non-zero value
closes one run (emitted when long enough) and rearms the scan. -/
theorem closedRunsAux_seg (zeros : List ℚ) (hz : ∀ v ∈ zeros, v = 0) (w : ℚ) (hw : w ≠ 0)
    (rest : List ℚ) : ∀ i dur t,
    closedRunsAux (zeros ++ w :: rest) i dur t =
      (if dur + zeros.length > t then [(i - dur, i + zeros.length)] else []) ++
        closedRunsAux rest (i + zeros.length + 1) 0 t := by
  induction zeros with
  | nil =>
    intro i dur t
    rw [List.nil_append, closedRunsAux, if_neg hw]
    by_cases hthr : dur > t
    · rw [if_pos hthr, if_pos (by simpa using hthr)]
      simp
    · rw [if_neg hthr, if_neg (by simpa using hthr)]
      simp
  | cons z zeros ih =>
    intro i dur t
    have hz0 : z = 0 := hz z (by simp)
    rw [List.cons_append, closedRunsAux, if_pos hz0,
      ih (fun x hx => hz x (by simp [hx])) (i + 1) (dur + 1) t]
    have h1 : dur + 1 + zeros.length = dur + (z :: zeros).length := by simp; omega
    have h2 : i + 1 - (dur + 1) = i - dur := by omega
    have h3 : i + 1 + zeros.length = i + (z :: zeros).length := by simp; omega
    rw [h1, h2, h3]

/-- Every rational list is all zeros or splits at its first non-zero
element. -/
theorem exists_first_nonzero (vals : List ℚ) :
    (∀ v ∈ vals, v = 0) ∨
      ∃ zeros w rest, vals = zeros ++ w :: rest ∧ (∀ v ∈ zeros, v = 0) ∧ w ≠ 0 := by
  induction vals with
  | nil => left; simp
  | cons v tail ih =>
    by_cases hv : v = 0
    · rcases ih with h | ⟨zeros, w, rest, heq, hz, hw⟩
      · left
        intro x hx
        rcases List.mem_cons.mp hx with hx | hx
        · simpa [hx] using hv
        · exact h x hx
      · right
        refine ⟨v :: zeros, w, rest, by simp [heq], ?_, hw⟩
        intro x hx
        rcases List.mem_cons.mp hx with hx | hx
        · simpa [hx] using hv
        · exact hz x hx
    · right
      exact ⟨[], v, tail, rfl, by simp, hv⟩

/-- A closed maximal silent run of the frame sequence, positioned at or
after absolute frame `i` (the sequence `vals` starts at absolute frame
`i`): frames `[s, e)` are zero, frame `e` exists and is non-zero (the
closing frame), the run is maximal on the left, and its length strictly
exceeds the threshold `t`. -/
def goodRunFrom (vals : List ℚ) (i t s e : Nat) : Prop :=
  i ≤ s ∧ s < e ∧ e - i < vals.length ∧
  (∀ k, k < e → s ≤ k → vals.getD (k - i) 1 = 0) ∧
  vals.getD (e - i) 1 ≠ 0 ∧
  (s = i ∨ vals.getD (s - 1 - i) 1 ≠ 0) ∧
  e - s > t

instance (vals : List ℚ) (i t s e : Nat) : Decidable (goodRunFrom vals i t s e) := by
  unfold goodRunFrom; infer_instance

/-- In an all-zero list every in-range `getD` is zero. -/
theorem getD_all_zero (l : List ℚ) (hz : ∀ v ∈ l, v = 0) :
    ∀ j, j < l.length → l.getD j 1 = 0 := by
  induction l with
  | nil => intro j hj; simp at hj
  | cons a l ih =>
    intro j hj
    cases j with
    | zero => simpa using hz a (by simp)
    | succ j =>
      rw [List.getD_cons_succ]
      exact ih (fun v hv => hz v (by simp [hv])) j (by simpa using hj)

/-- Splitting a frame sequence at its first non-zero value splits its
qualifying runs: either the leading zero block itself qualifies, or the
run lives entirely after the closing frame. -/
theorem goodRunFrom_seg_iff (zeros : List ℚ) (hz : ∀ v ∈ zeros, v = 0) (w : ℚ) (hw : w ≠ 0)
    (rest : List ℚ) (i t s e : Nat) :
    goodRunFrom (zeros ++ w :: rest) i t s e ↔
      ((zeros.length > t ∧ s = i ∧ e = i + zeros.length) ∨
        goodRunFrom rest (i + zeros.length + 1) t s e) := by
  have hlen : (zeros ++ w :: rest).length = zeros.length + 1 + rest.length := by
    simp [List.length_append]; omega
  have G1 : ∀ j, j < zeros.length → (zeros ++ w :: rest).getD j 1 = 0 := by
    intro j hj
    rw [List.getD_append _ _ _ _ hj]
    exact getD_all_zero zeros hz j hj
  have G2 : (zeros ++ w :: rest).getD zeros.length 1 = w := by
    rw [List.getD_append_right _ _ _ _ (le_refl _), Nat.sub_self, List.getD_cons_zero]
  have G3 : ∀ j, zeros.length < j →
      (zeros ++ w :: rest).getD j 1 = rest.getD (j - zeros.length - 1) 1 := by
    intro j hj
    rw [List.getD_append_right _ _ _ _ (by omega)]
    rw [show j - zeros.length = (j - zeros.length - 1) + 1 by omega, List.getD_cons_succ]
    simp
  unfold goodRunFrom
  constructor
  · rintro ⟨his, hse, helen, hint, hclose, hleft, hthr⟩
    rcases Nat.lt_trichotomy (e - i) zeros.length with hcase | hcase | hcase
    · exact absurd (G1 _ hcase) hclose
    · left
      have he : e = i + zeros.length := by omega
      have hs : s = i := by
        by_contra hsi
        have hs1 : s - 1 - i < zeros.length := by omega
        exact (hleft.resolve_left hsi) (G1 _ hs1)
      exact ⟨by omega, hs, he⟩
    · right
      have hs_lb : i + zeros.length + 1 ≤ s := by
        by_contra hcon
        have h1 := hint (i + zeros.length) (by omega) (by omega)
        rw [show i + zeros.length - i = zeros.length by omega, G2] at h1
        exact hw h1
      refine ⟨hs_lb, hse, by omega, ?_, ?_, ?_, hthr⟩
      · intro k hk hks
        have h1 := hint k hk (by omega)
        rwa [G3 (k - i) (by omega),
          show k - i - zeros.length - 1 = k - (i + zeros.length + 1) by omega] at h1
      · rw [← show e - i - zeros.length - 1 = e - (i + zeros.length + 1) by omega,
          ← G3 (e - i) (by omega)]
        exact hclose
      · by_cases hs_eq : s = i + zeros.length + 1
        · exact Or.inl hs_eq
        · refine Or.inr ?_
          have h1 := hleft.resolve_left (by omega)
          rwa [G3 (s - 1 - i) (by omega),
            show s - 1 - i - zeros.length - 1 = s - 1 - (i + zeros.length + 1) by omega] at h1
  · rintro (⟨hqt, hs, he⟩ | ⟨his, hse, helen, hint, hclose, hleft, hthr⟩)
    · subst hs; subst he
      refine ⟨le_refl s, by omega, by omega, ?_, ?_, Or.inl rfl, by omega⟩
      · intro k hk hks
        exact G1 (k - s) (by omega)
      · rw [show s + zeros.length - s = zeros.length by omega, G2]
        exact hw
    · refine ⟨by omega, hse, by omega, ?_, ?_, ?_, hthr⟩
      · intro k hk hks
        rw [G3 (k - i) (by omega),
          show k - i - zeros.length - 1 = k - (i + zeros.length + 1) by omega]
        exact hint k hk (by omega)
      · rw [G3 (e - i) (by omega),
          show e - i - zeros.length - 1 = e - (i + zeros.length + 1) by omega]
        exact hclose
      · refine Or.inr ?_
        rcases hleft with h | h
        · rw [show s - 1 - i = zeros.length by omega, G2]
          exact hw
        · by_cases hs_eq : s = i + zeros.length + 1
          · rw [show s - 1 - i = zeros.length by omega, G2]
            exact hw
          · rw [G3 (s - 1 - i) (by omega),
              show s - 1 - i - zeros.length - 1 = s - 1 - (i + zeros.length + 1) by omega]
            exact h

/-- Membership characterization of the closed-run scan: a pair is
emitted from state `(i, dur = 0)` iff it is a qualifying closed maximal
run at or after frame `i`. -/
theorem closedRunsAux_mem_iff : ∀ (n : Nat) (vals : List ℚ), vals.length ≤ n →
    ∀ i t s e, ((s, e) ∈ closedRunsAux vals i 0 t ↔ goodRunFrom vals i t s e) := by
  intro n
  induction n with
  | zero =>
    intro vals hlen i t s e
    have hnil : vals = [] := List.eq_nil_of_length_eq_zero (Nat.le_zero.mp hlen)
    subst hnil
    simp [closedRunsAux, goodRunFrom]
  | succ n ih =>
    intro vals hlen i t s e
    rcases exists_first_nonzero vals with hz | ⟨zeros, w, rest, heq, hz, hw⟩
    · rw [closedRunsAux_all_zero vals hz]
      simp only [List.not_mem_nil, false_iff]
      rintro ⟨_, _, hlt, _, hne, _, _⟩
      exact hne (getD_all_zero vals hz _ hlt)
    · subst heq
      have hrest_len : rest.length ≤ n := by
        rw [List.length_append, List.length_cons] at hlen
        omega
      rw [closedRunsAux_seg zeros hz w hw rest i 0 t,
        goodRunFrom_seg_iff zeros hz w hw rest i t s e]
      simp only [Nat.zero_add, Nat.sub_zero, List.mem_append]
      rw [ih rest hrest_len (i + zeros.length + 1) t s e]
      by_cases hqt : zeros.length > t
      · rw [if_pos hqt]
        constructor
        · rintro (h | h)
          · simp only [List.mem_singleton, Prod.mk.injEq] at h
            exact Or.inl ⟨hqt, h.1, h.2⟩
          · exact Or.inr h
        · rintro (⟨_, h1, h2⟩ | h)
          · exact Or.inl (by simp [h1, h2])
          · exact Or.inr h
      · rw [if_neg hqt]
        simp only [List.not_mem_nil, false_or]
        constructor
        · exact Or.inr
        · rintro (⟨h, _, _⟩ | h)
          · exact absurd h hqt
          · exact h

/-- Bounds and ordering of the closed-run scan output: every emitted
pair starts at or after `i` and is a proper interval, and the pairs are
emitted in strictly increasing disjoint order. -/
theorem closedRunsAux_sorted : ∀ (n : Nat) (vals : List ℚ), vals.length ≤ n →
    ∀ i t, (∀ p ∈ closedRunsAux vals i 0 t, i ≤ p.1 ∧ p.1 < p.2) ∧
      List.Pairwise (fun p q : Nat × Nat => p.2 < q.1) (closedRunsAux vals i 0 t) := by
  intro n
  induction n with
  | zero =>
    intro vals hlen i t
    have hnil : vals = [] := List.eq_nil_of_length_eq_zero (Nat.le_zero.mp hlen)
    subst hnil
    simp [closedRunsAux]
  | succ n ih =>
    intro vals hlen i t
    rcases exists_first_nonzero vals with hz | ⟨zeros, w, rest, heq, hz, hw⟩
    · rw [closedRunsAux_all_zero vals hz]
      simp
    · subst heq
      have hrest_len : rest.length ≤ n := by
        rw [List.length_append, List.length_cons] at hlen
        omega
      rw [closedRunsAux_seg zeros hz w hw rest i 0 t]
      simp only [Nat.zero_add, Nat.sub_zero]
      have hrest := ih rest hrest_len (i + zeros.length + 1) t
      by_cases hqt : zeros.length > t
      · rw [if_pos hqt]
        constructor
        · intro p hp
          rcases List.mem_cons.mp (by simpa using hp) with hp | hp
          · simp [hp]; omega
          · have := hrest.1 p hp
            constructor <;> omega
        · rw [List.singleton_append, List.pairwise_cons]
          refine ⟨?_, hrest.2⟩
          intro p hp
          have := hrest.1 p hp
          simp only
          omega
      · rw [if_neg hqt, List.nil_append]
        exact ⟨fun p hp => by have := hrest.1 p hp; constructor <;> omega, hrest.2⟩

/-- The scan of `extract_silent_sections` started from its initial state
(frame 0, no open run, `last_loudness = -1`) emits exactly the closed
runs. -/
theorem extract_silent_frames_eq (vals : List ℚ) (t : Nat) :
    extract_silent_frames vals t = closedRunsAux vals 0 0 t := by
  rw [extract_silent_frames,
    extractAux_eq_closedRunsAux vals 0 0 (-1) 0 t [] (fun _ => by norm_num)
      (by omega) (by omega)]
  simp

/-- Refinement-spec predicate, following the claim's words: a maximal
zero-loudness run `[s, e)` that is closed by the later non-zero frame
`e` and whose frame length strictly exceeds the threshold. -/
def specMaximalClosedRun (vals : List ℚ) (t : Nat) (s e : Nat) : Prop :=
  s < e ∧ e < vals.length ∧ (∀ k, k < e → s ≤ k → vals.getD k 1 = 0) ∧
  vals.getD e 1 ≠ 0 ∧ (s = 0 ∨ vals.getD (s - 1) 1 ≠ 0) ∧ e - s > t

instance (vals : List ℚ) (t s e : Nat) : Decidable (specMaximalClosedRun vals t s e) := by
  unfold specMaximalClosedRun; infer_instance

/-- The spec predicate is the absolute-position instance of
`goodRunFrom`. -/
theorem specMaximalClosedRun_iff_goodRunFrom (vals : List ℚ) (t s e : Nat) :
    specMaximalClosedRun vals t s e ↔ goodRunFrom vals 0 t s e := by
  unfold specMaximalClosedRun goodRunFrom
  simp

/-- C7: `extract_silent_sections` emits, in increasing order, exactly
the maximal zero-loudness runs closed by a later non-zero frame whose
length strictly exceeds `duration_frame_threshold`, each as the interval
from the run's start frame to the closing frame (converted to seconds by
`frame_per_sec`); short runs and an unclosed trailing run are never
emitted. -/
theorem claim_C7_extract_silent_sections (vals : List ℚ) (t : Nat) (fps : ℚ) :
    (∀ s e : Nat, ((s, e) ∈ extract_silent_frames vals t ↔ specMaximalClosedRun vals t s e)) ∧
    List.Pairwise (fun p q : Nat × Nat => p.2 < q.1) (extract_silent_frames vals t) ∧
    extract_silent_sections vals t fps =
      (extract_silent_frames vals t).map
        (fun p => ⟨(p.1 : ℚ) / fps, (p.2 : ℚ) / fps, fps⟩) := by
  refine ⟨?_, ?_, rfl⟩
  · intro s e
    rw [extract_silent_frames_eq, specMaximalClosedRun_iff_goodRunFrom]
    exact closedRunsAux_mem_iff vals.length vals (le_refl _) 0 t s e
  · rw [extract_silent_frames_eq]
    exact (closedRunsAux_sorted vals.length vals (le_refl _) 0 t).2

/-- Loop state of `ProgramScenes.construct_cm_sections` (lines 352-394):
the (mutable, aliased) `durations_sec` list of the caller-supplied
`DurationSecUnits` object, the current target structure and the
structures not yet consumed, the (never reassigned) `margin_sec` read
from the first structure, the current `nominal_cm_duration`, the
candidate threshold, the accumulated divider candidates and emitted cm
sections, and whether the loop has hit `break`. -/
structure CMState where
  units : List ℚ
  target_cm_structure : NominalCMStructure
  remaining_structures : List NominalCMStructure
  margin_sec : ℚ
  nominal_cm_duration : ℚ
  cm_num_threshold : Nat
  cm_divider_candidates : List SilentSection
  cm_sections : List (Option (ℚ × ℚ))
  done : Bool
deriving DecidableEq, Repr

/-- Python's `"monolithic_cm" in composition`. -/
def hasMonolithicKey (comp : List (CMKey × ℚ)) : Bool :=
  comp.any (fun kv => decide (kv.1 = CMKey.monolithic_cm))

/-- Python dict lookup `composition[key]` (total because every use is
guarded by a membership test). -/
def lookupKey : List (CMKey × ℚ) → CMKey → ℚ
  | [], _ => 0
  | kv :: rest, key => if kv.1 = key then kv.2 else lookupKey rest key

/-- Lines 373-375: `candidates_could_be_cm` is `len > cm_num_threshold`,
overridden to `len == 1` when the target composition is non-empty and
contains `monolithic_cm`. -/
def candidatesCouldBeCM (target : NominalCMStructure) (cm_num_threshold : Nat)
    (candidates : List SilentSection) : Bool :=
  if target.composition.length ≠ 0 ∧ hasMonolithicKey target.composition then
    decide (candidates.length = 1)
  else
    decide (candidates.length > cm_num_threshold)

/-- The transient unit list used for classification in one iteration
(lines 367-369): a deep copy of the caller's units, replaced by the
widened set when the target composition contains `monolithic_cm`. -/
def cmStepTmpUnits (st : CMState) : List ℚ :=
  if hasMonolithicKey st.target_cm_structure.composition then
    (append_duration st.units
      (lookupKey st.target_cm_structure.composition CMKey.monolithic_cm)).1
  else st.units

/-- Post-iteration state of the caller's `durations_sec` list: when the
target composition contains `monolithic_cm`, line 369's
`append_duration` call mutates it (aliasing). -/
def cmStepUnits (st : CMState) : List ℚ :=
  if hasMonolithicKey st.target_cm_structure.composition then
    (append_duration st.units
      (lookupKey st.target_cm_structure.composition CMKey.monolithic_cm)).2
  else st.units

/-- The divider-candidate list after the possible append of line 372:
the current section is appended when it classifies as a divider
candidate against the transiently widened unit list. -/
def cmStepCandidates (st : CMState) (sec : SilentSection)
    (following : List SilentSection) : List SilentSection :=
  if sec.is_cm_divider_candidate following (cmStepTmpUnits st) st.margin_sec then
    st.cm_divider_candidates ++ [sec]
  else st.cm_divider_candidates

/-- One iteration of the `for index, section in enumerate(silent_sections)`
loop of `construct_cm_sections` (lines 365-393).  `following` is
`silent_sections[index+1:]`. -/
def cmStep (st : CMState) (sec : SilentSection) (following : List SilentSection) : CMState :=
  let units' := cmStepUnits st
  let candidates := cmStepCandidates st sec following
  if candidatesCouldBeCM st.target_cm_structure st.cm_num_threshold candidates then
    let combined_duration_sec := sec.end_sec - (candidates.headD default).start_sec
    if combined_duration_sec ≤ st.nominal_cm_duration then
      { st with units := units', cm_divider_candidates := candidates }
    else if st.nominal_cm_duration < combined_duration_sec ∧
        combined_duration_sec < st.nominal_cm_duration + st.margin_sec then
      let actual_cm_section := st.target_cm_structure.get_actual_cm_section
        (candidates.headD default).end_sec sec.start_sec
      match st.remaining_structures with
      | t :: ts =>
        { units := units', target_cm_structure := t, remaining_structures := ts,
          margin_sec := st.margin_sec, nominal_cm_duration := t.nominal_duration,
          cm_num_threshold := st.cm_num_threshold,
          cm_divider_candidates := [candidates.getLastD default],
          cm_sections := st.cm_sections ++ [actual_cm_section], done := false }
      | [] =>
        { st with
          units := units',
          cm_sections := st.cm_sections ++ [actual_cm_section],
          cm_divider_candidates := candidates, done := true }
    else
      { st with units := units', cm_divider_candidates := [candidates.getLastD default] }
  else
    { st with units := units', cm_divider_candidates := candidates }

/-- The scan loop with `break` semantics: once `done` is set no further
silent section is processed. -/
def cmLoop : List SilentSection → CMState → CMState
  | [], st => st
  | sec :: rest, st => if st.done then st else cmLoop rest (cmStep st sec rest)

/-- Model of `ProgramScenes.construct_cm_sections` (lines 337-394): the emitted
cm sections (possibly Python `None`, see
`NominalCMStructure.get_actual_cm_section`) together with the post-call
state of the caller's `durations_sec` list. -/
def construct_cm_sections (silent_sections : List SilentSection)
    (duration_sec_units : List ℚ) (cm_structures : List NominalCMStructure)
    (has_monolithic_cm : Bool) : List (Option (ℚ × ℚ)) × List ℚ :=
  match cm_structures with
  | [] => ([], duration_sec_units)
  | t :: rest =>
    let cm_num_threshold := if has_monolithic_cm then 0 else 1
    let final := cmLoop silent_sections
      { units := duration_sec_units, target_cm_structure := t,
        remaining_structures := rest, margin_sec := t.margin_sec,
        nominal_cm_duration := t.nominal_duration,
        cm_num_threshold := cm_num_threshold, cm_divider_candidates := [],
        cm_sections := [], done := false }
    (final.cm_sections, final.units)

/-- The loop of `ProgramScenes.search_cm_sections` (lines 409-424),
including the post-loop flush of an open run of at least two
candidates. -/
def searchLoop : List SilentSection → List ℚ → List SilentSection → Bool →
    List (ℚ × ℚ) → List (ℚ × ℚ)
  | [], _, cm_divider_candidates, _, cm_sections =>
    if cm_divider_candidates.length ≥ 2 then
      cm_sections ++ [((cm_divider_candidates.headD default).end_sec,
        (cm_divider_candidates.getLastD default).start_sec)]
    else cm_sections
  | sec :: rest, duration_sec_units, cm_divider_candidates, continuity, cm_sections =>
    if sec.is_cm_divider_candidate rest duration_sec_units 1 then
      searchLoop rest duration_sec_units (cm_divider_candidates ++ [sec]) true cm_sections
    else if continuity ∧ cm_divider_candidates.length ≥ 2 then
      searchLoop rest duration_sec_units [] false
        (cm_sections ++ [((cm_divider_candidates.headD default).end_sec,
          (cm_divider_candidates.getLastD default).start_sec)])
    else
      searchLoop rest duration_sec_units cm_divider_candidates continuity cm_sections

/-- Model of `ProgramScenes.search_cm_sections` (lines 397-424); `margin_sec` is
the fixed `1`. -/
def search_cm_sections (silent_sections : List SilentSection)
    (duration_sec_units : List ℚ) : List (ℚ × ℚ) :=
  searchLoop silent_sections duration_sec_units [] false []

/-- Collapse a list of possibly-`None` cm sections: Python's
`generate_scenes` raises `TypeError` on `section[0]` as soon as any
`None` is iterated. -/
def sequenceOption : List (Option (ℚ × ℚ)) → Option (List (ℚ × ℚ))
  | [] => some []
  | none :: _ => none
  | some x :: rest => (sequenceOption rest).map (fun l => x :: l)

/-- Model of `ProgramScenes.construct_program_scenes` (lines 240-279), returning
the scene list (or the Python exception) together with the post-call
state of the caller's `durations_sec` list.  `silent_sections[0]` on an
empty list raises `IndexError` (line 270) before `generate_scenes` runs. -/
def construct_program_scenes (loudness_values : List ℚ) (duration_frame_threshold : Nat)
    (frame_per_sec : ℚ) (duration_sec_units : List ℚ)
    (cm_structures : List NominalCMStructure) (last_scene_duration : ℚ)
    (has_monolithic_cm : Bool) : Except PyErr (List (ℚ × ℚ)) × List ℚ :=
  let silent_sections :=
    extract_silent_sections loudness_values duration_frame_threshold frame_per_sec
  let res := construct_cm_sections silent_sections duration_sec_units cm_structures
    has_monolithic_cm
  match silent_sections with
  | [] => (Except.error PyErr.indexError, res.2)
  | first :: _ =>
    match sequenceOption res.1 with
    | none => (Except.error PyErr.typeError, res.2)
    | some cm_secs =>
      (Except.ok (generate_scenes first.start_sec
        (silent_sections.getLastD default).end_sec cm_secs last_scene_duration), res.2)

/-- Model of `ProgramScenes.construct_program_scenes_without_structure`
(lines 281-308): same shape, using `search_cm_sections` and
`last_scene_duration = 0`. -/
def construct_program_scenes_without_structure (loudness_values : List ℚ)
    (duration_frame_threshold : Nat) (frame_per_sec : ℚ)
    (duration_sec_units : List ℚ) : Except PyErr (List (ℚ × ℚ)) :=
  let silent_sections :=
    extract_silent_sections loudness_values duration_frame_threshold frame_per_sec
  let cm_secs := search_cm_sections silent_sections duration_sec_units
  match silent_sections with
  | [] => Except.error PyErr.indexError
  | first :: _ =>
    Except.ok (generate_scenes first.start_sec
      (silent_sections.getLastD default).end_sec cm_secs 0)

/-- C9: on a non-empty loudness sequence with no qualifying closed
silent run, `extract_silent_sections` returns the empty list and both
pipeline entry points fail with an unhandled `IndexError` at
`silent_sections[0]` (not a validation error). -/
theorem claim_C9_index_error_on_no_silence (vals : List ℚ) (t : Nat) (fps : ℚ)
    (units : List ℚ) (structs : List NominalCMStructure) (dur : ℚ) (flag : Bool)
    (hne : vals ≠ []) (hnorun : ∀ s e : Nat, ¬ specMaximalClosedRun vals t s e) :
    extract_silent_sections vals t fps = [] ∧
    (construct_program_scenes vals t fps units structs dur flag).1 =
      Except.error PyErr.indexError ∧
    construct_program_scenes_without_structure vals t fps units =
      Except.error PyErr.indexError := by
  have hframes : extract_silent_frames vals t = [] := by
    rw [extract_silent_frames_eq]
    cases hl : closedRunsAux vals 0 0 t with
    | nil => rfl
    | cons p rest =>
      exfalso
      have hmem : (p.1, p.2) ∈ closedRunsAux vals 0 0 t := by rw [hl]; simp
      have := (closedRunsAux_mem_iff vals.length vals (le_refl _) 0 t p.1 p.2).mp hmem
      exact hnorun p.1 p.2 ((specMaximalClosedRun_iff_goodRunFrom vals t p.1 p.2).mpr this)
  have hss : extract_silent_sections vals t fps = [] := by
    rw [extract_silent_sections, hframes]
    rfl
  refine ⟨hss, ?_, ?_⟩
  · simp only [construct_program_scenes, hss]
  · simp only [construct_program_scenes_without_structure, hss]

/-- Witness for C9: the sequence `[0, 0, 1]` with threshold `3` has only
a length-2 closed run, so nothing qualifies and both pipelines raise
`IndexError`. -/
theorem claim_C9_index_error_on_no_silence_witness :
    (([0, 0, 1] : List ℚ) ≠ [] ∧ (∀ s e : Nat, ¬ specMaximalClosedRun [0, 0, 1] 3 s e)) ∧
    (extract_silent_sections [0, 0, 1] 3 1 = [] ∧
    (construct_program_scenes [0, 0, 1] 3 1 [15, 30] [] 0 false).1 =
      Except.error PyErr.indexError ∧
    construct_program_scenes_without_structure [0, 0, 1] 3 1 [15, 30] =
      Except.error PyErr.indexError) := by
  have hne : ([0, 0, 1] : List ℚ) ≠ [] := by simp
  have hnorun : ∀ s e : Nat, ¬ specMaximalClosedRun [0, 0, 1] 3 s e := by
    intro s e h
    have h1 : s < e := h.1
    have h2 : e < ([0, 0, 1] : List ℚ).length := h.2.1
    have h3 : e - s > 3 := h.2.2.2.2.2
    simp only [List.length_cons, List.length_nil] at h2
    omega
  exact ⟨⟨hne, hnorun⟩,
    claim_C9_index_error_on_no_silence [0, 0, 1] 3 1 [15, 30] [] 0 false hne hnorun⟩

/-- One loop iteration never increases
`emitted sections + structures still available`: a match either consumes
one remaining structure or sets `done`. -/
theorem cmStep_measure (st : CMState) (sec : SilentSection) (following : List SilentSection)
    (hdone : st.done = false) :
    (cmStep st sec following).cm_sections.length +
      (if (cmStep st sec following).done = true then 0
        else 1 + (cmStep st sec following).remaining_structures.length) ≤
      st.cm_sections.length + (1 + st.remaining_structures.length) := by
  simp only [cmStep]
  split
  · split
    · simp [hdone]
    · split
      · split
        · rename_i heq
          simp [heq, List.length_append]
          omega
        · simp [List.length_append]
      · simp [hdone]
  · simp [hdone]

/-- A `done` state absorbs the rest of the scan: after `break` no
further silent section is examined. -/
theorem cmLoop_done : ∀ (ss : List SilentSection) (st : CMState),
    st.done = true → cmLoop ss st = st := by
  intro ss
  induction ss with
  | nil => intro st _; rfl
  | cons sec rest ih => intro st hdone; rw [cmLoop, if_pos hdone]

/-- Measure bound for the whole scan. -/
theorem cmLoop_measure : ∀ (ss : List SilentSection) (st : CMState),
    (cmLoop ss st).cm_sections.length +
      (if (cmLoop ss st).done = true then 0
        else 1 + (cmLoop ss st).remaining_structures.length) ≤
      st.cm_sections.length +
        (if st.done = true then 0 else 1 + st.remaining_structures.length) := by
  intro ss
  induction ss with
  | nil => intro st; rw [cmLoop]
  | cons sec rest ih =>
    intro st
    rw [cmLoop]
    by_cases hdone : st.done = true
    · rw [if_pos hdone, hdone]
    · have hdf : st.done = false := Bool.eq_false_iff.mpr hdone
      rw [if_neg hdone, hdf]
      simp only [Bool.false_eq_true, if_false]
      exact le_trans (ih (cmStep st sec rest)) (cmStep_measure st sec rest hdf)

/-- Corollary of the measure bound: an unfinished state gains at most
one section per available structure. -/
theorem cmLoop_sections_le (ss : List SilentSection) (st : CMState)
    (hdone : st.done = false) :
    (cmLoop ss st).cm_sections.length ≤
      st.cm_sections.length + 1 + st.remaining_structures.length := by
  have h := cmLoop_measure ss st
  rw [hdone] at h
  simp only [Bool.false_eq_true, if_false] at h
  split at h <;> omega

/-- The matcher never emits more cm sections than supplied structures. -/
theorem construct_cm_sections_length_le (ss : List SilentSection) (u : List ℚ)
    (structs : List NominalCMStructure) (flag : Bool) :
    (construct_cm_sections ss u structs flag).1.length ≤ structs.length := by
  match structs with
  | [] => simp [construct_cm_sections]
  | t :: rest =>
    simp only [construct_cm_sections]
    have h := cmLoop_sections_le ss
      { units := u, target_cm_structure := t, remaining_structures := rest,
        margin_sec := t.margin_sec, nominal_cm_duration := t.nominal_duration,
        cm_num_threshold := if flag then 0 else 1, cm_divider_candidates := [],
        cm_sections := [], done := false } rfl
    simp only [List.length_nil, List.length_cons] at h ⊢
    omega

/-- When the current target is the last supplied structure and the
in-band match fires, the iteration emits the resolved section and sets
`done` (the `break` of line 392). -/
theorem cmStep_break_on_last_match (st : CMState) (sec : SilentSection)
    (following : List SilentSection) (hrest : st.remaining_structures = [])
    (hcould : candidatesCouldBeCM st.target_cm_structure st.cm_num_threshold
      (cmStepCandidates st sec following) = true)
    (hlo : st.nominal_cm_duration <
      sec.end_sec - ((cmStepCandidates st sec following).headD default).start_sec)
    (hhi : sec.end_sec - ((cmStepCandidates st sec following).headD default).start_sec <
      st.nominal_cm_duration + st.margin_sec) :
    (cmStep st sec following).done = true ∧
    (cmStep st sec following).cm_sections = st.cm_sections ++
      [st.target_cm_structure.get_actual_cm_section
        ((cmStepCandidates st sec following).headD default).end_sec sec.start_sec] := by
  simp only [cmStep]
  rw [if_pos hcould, if_neg (not_le.mpr hlo), if_pos ⟨hlo, hhi⟩, hrest]
  exact ⟨rfl, rfl⟩

/-- C8: the matcher returns the empty list at once on an empty structure
list; it never emits more sections than supplied structures; once the
`break` of the final match has fired, the remaining silent sections are
not scanned; and the final match itself emits exactly the resolved
section and stops. -/
theorem claim_C8_exhaustion_semantics :
    (∀ (ss : List SilentSection) (u : List ℚ) (flag : Bool),
      construct_cm_sections ss u [] flag = ([], u)) ∧
    (∀ (ss : List SilentSection) (u : List ℚ) (structs : List NominalCMStructure)
      (flag : Bool), (construct_cm_sections ss u structs flag).1.length ≤ structs.length) ∧
    (∀ (ss : List SilentSection) (st : CMState), st.done = true → cmLoop ss st = st) ∧
    (∀ (st : CMState) (sec : SilentSection) (following : List SilentSection),
      st.remaining_structures = [] →
      candidatesCouldBeCM st.target_cm_structure st.cm_num_threshold
        (cmStepCandidates st sec following) = true →
      st.nominal_cm_duration <
        sec.end_sec - ((cmStepCandidates st sec following).headD default).start_sec →
      sec.end_sec - ((cmStepCandidates st sec following).headD default).start_sec <
        st.nominal_cm_duration + st.margin_sec →
      (cmStep st sec following).done = true ∧
      (cmStep st sec following).cm_sections = st.cm_sections ++
        [st.target_cm_structure.get_actual_cm_section
          ((cmStepCandidates st sec following).headD default).end_sec sec.start_sec]) :=
  ⟨fun _ _ _ => rfl, construct_cm_sections_length_le, cmLoop_done, cmStep_break_on_last_match⟩

/-- Concrete scan state for the C8 witness: last structure targeted,
two accumulated candidates, scan not yet finished. -/
def cmLastStructStateW : CMState :=
  { units := [15, 30], target_cm_structure := mkNominalCMStructure [(CMKey.cm, 9)] 2,
    remaining_structures := [], margin_sec := 2, nominal_cm_duration := 9,
    cm_num_threshold := 1, cm_divider_candidates := [⟨0, 1, 1⟩, ⟨9, 10, 1⟩],
    cm_sections := [], done := false }

/-- Concrete `done` scan state for the C8 witness. -/
def cmDoneStateW : CMState :=
  { units := [15, 30], target_cm_structure := mkNominalCMStructure [(CMKey.cm, 9)] 2,
    remaining_structures := [], margin_sec := 2, nominal_cm_duration := 9,
    cm_num_threshold := 1, cm_divider_candidates := [], cm_sections := [], done := true }

/-- Witness for C8: a finished (`done`) state absorbs a further section,
and a concrete in-band match of the last structure emits one section and
stops. -/
theorem claim_C8_exhaustion_semantics_witness :
    (cmDoneStateW.done = true ∧ cmLoop [⟨0, 1, 1⟩] cmDoneStateW = cmDoneStateW) ∧
    ((cmLastStructStateW.remaining_structures = [] ∧
      candidatesCouldBeCM cmLastStructStateW.target_cm_structure
        cmLastStructStateW.cm_num_threshold
        (cmStepCandidates cmLastStructStateW ⟨9, 10, 1⟩ []) = true ∧
      cmLastStructStateW.nominal_cm_duration <
        SilentSection.end_sec ⟨9, 10, 1⟩ -
          ((cmStepCandidates cmLastStructStateW ⟨9, 10, 1⟩ []).headD default).start_sec ∧
      SilentSection.end_sec ⟨9, 10, 1⟩ -
          ((cmStepCandidates cmLastStructStateW ⟨9, 10, 1⟩ []).headD default).start_sec <
        cmLastStructStateW.nominal_cm_duration + cmLastStructStateW.margin_sec) ∧
    ((cmStep cmLastStructStateW ⟨9, 10, 1⟩ []).done = true ∧
      (cmStep cmLastStructStateW ⟨9, 10, 1⟩ []).cm_sections =
        cmLastStructStateW.cm_sections ++
          [cmLastStructStateW.target_cm_structure.get_actual_cm_section
            ((cmStepCandidates cmLastStructStateW ⟨9, 10, 1⟩ []).headD default).end_sec
            (SilentSection.start_sec ⟨9, 10, 1⟩)])) :=
  ⟨⟨rfl, claim_C8_exhaustion_semantics.2.2.1 [⟨0, 1, 1⟩] cmDoneStateW rfl⟩,
    ⟨⟨rfl, by with_unfolding_all decide, by with_unfolding_all decide,
        by with_unfolding_all decide⟩,
      claim_C8_exhaustion_semantics.2.2.2 cmLastStructStateW ⟨9, 10, 1⟩ [] rfl
        (by with_unfolding_all decide) (by with_unfolding_all decide)
        (by with_unfolding_all decide)⟩⟩

/-- Concrete scan state reaching the overshoot branch of line 393: two
accumulated divider candidates `(0,1)` and `(9,10)`, target `{cm: 9}`
with margin `2`, and a current section `(30,31)` whose combined span
`31` overshoots `nominal + margin = 11`. -/
def cmOvershootStateW : CMState :=
  { units := [15, 30], target_cm_structure := mkNominalCMStructure [(CMKey.cm, 9)] 2,
    remaining_structures := [], margin_sec := 2, nominal_cm_duration := 9,
    cm_num_threshold := 1, cm_divider_candidates := [⟨0, 1, 1⟩, ⟨9, 10, 1⟩],
    cm_sections := [], done := false }

/-- C2 counterexample: at a concrete overshoot iteration (candidate
count condition holds and `combined ≥ nominal + margin`), the
divider-candidate list afterwards is `[(9,10)]` — the last candidate is
retained as a new anchor — and in particular it is not reset to the
empty list as the claim states. -/
theorem claim_C2_reset_counterexample :
    (candidatesCouldBeCM cmOvershootStateW.target_cm_structure
        cmOvershootStateW.cm_num_threshold
        (cmStepCandidates cmOvershootStateW ⟨30, 31, 1⟩ []) = true ∧
      cmOvershootStateW.nominal_cm_duration + cmOvershootStateW.margin_sec ≤
        SilentSection.end_sec ⟨30, 31, 1⟩ -
          ((cmStepCandidates cmOvershootStateW ⟨30, 31, 1⟩ []).headD default).start_sec) ∧
    (cmStep cmOvershootStateW ⟨30, 31, 1⟩ []).cm_divider_candidates = [⟨9, 10, 1⟩] ∧
    (cmStep cmOvershootStateW ⟨30, 31, 1⟩ []).cm_divider_candidates ≠ [] := by
  with_unfolding_all decide

/-- C2 amended: in every iteration in which the candidate-count
condition holds and `combined ≥ nominal + margin` (overshoot, with a
positive margin), the divider-candidate list is reset to the singleton
holding its most recent element (`cm_divider_candidates[-1]`, line 393),
not to the empty list. -/
theorem claim_C2_overshoot_retains_last (st : CMState) (sec : SilentSection)
    (following : List SilentSection)
    (hcould : candidatesCouldBeCM st.target_cm_structure st.cm_num_threshold
      (cmStepCandidates st sec following) = true)
    (hover : st.nominal_cm_duration + st.margin_sec ≤
      sec.end_sec - ((cmStepCandidates st sec following).headD default).start_sec)
    (hm : 0 < st.margin_sec) :
    (cmStep st sec following).cm_divider_candidates =
      [(cmStepCandidates st sec following).getLastD default] := by
  simp only [cmStep]
  rw [if_pos hcould]
  have hlo : ¬(sec.end_sec - ((cmStepCandidates st sec following).headD default).start_sec ≤
      st.nominal_cm_duration) := by
    push_neg
    linarith
  rw [if_neg hlo]
  have hband : ¬(st.nominal_cm_duration <
      sec.end_sec - ((cmStepCandidates st sec following).headD default).start_sec ∧
      sec.end_sec - ((cmStepCandidates st sec following).headD default).start_sec <
        st.nominal_cm_duration + st.margin_sec) := by
    rintro ⟨_, h2⟩
    linarith
  rw [if_neg hband]

/-- Witness for the amended C2 at the concrete overshoot state. -/
theorem claim_C2_overshoot_retains_last_witness :
    (candidatesCouldBeCM cmOvershootStateW.target_cm_structure
        cmOvershootStateW.cm_num_threshold
        (cmStepCandidates cmOvershootStateW ⟨30, 31, 1⟩ []) = true ∧
      cmOvershootStateW.nominal_cm_duration + cmOvershootStateW.margin_sec ≤
        SilentSection.end_sec ⟨30, 31, 1⟩ -
          ((cmStepCandidates cmOvershootStateW ⟨30, 31, 1⟩ []).headD default).start_sec ∧
      0 < cmOvershootStateW.margin_sec) ∧
    (cmStep cmOvershootStateW ⟨30, 31, 1⟩ []).cm_divider_candidates =
      [(cmStepCandidates cmOvershootStateW ⟨30, 31, 1⟩ []).getLastD default] :=
  ⟨⟨by with_unfolding_all decide, by with_unfolding_all decide,
      by with_unfolding_all decide⟩,
    claim_C2_overshoot_retains_last cmOvershootStateW ⟨30, 31, 1⟩ []
      (by with_unfolding_all decide) (by with_unfolding_all decide)
      (by with_unfolding_all decide)⟩

/-- A composition without a `scene` key makes the loop of
`get_actual_cm_section` fall through and return Python `None`. -/
theorem actualCMLoop_no_scene (comp : List (CMKey × ℚ))
    (h : ∀ kv ∈ comp, kv.1 ≠ CMKey.scene) :
    ∀ counter left_edge right_edge, actualCMLoop comp counter left_edge right_edge = none := by
  induction comp with
  | nil => intro counter l r; rfl
  | cons kv rest ih =>
    intro counter l r
    rw [actualCMLoop, if_neg (h kv (by simp))]
    exact ih (fun x hx => h x (by simp [hx])) (counter + 1) l r

/-- C10: a validly constructed two-component composition with no
`scene` key (e.g. `{cm: d1, monolithic_cm: d2}`) makes
`get_actual_cm_section` return Python `None` instead of an interval;
concretely, the matcher then emits that non-interval as a commercial
section: on sections `(0,11)` and `(15,16)` with the structure
`{cm: 4, monolithic_cm: 6}` (margin 2) the emitted section list is
`[none]`. -/
theorem claim_C10_two_component_no_scene_returns_none (comp : List (CMKey × ℚ)) (m : ℚ)
    (left_edge right_edge : ℚ) (hvalid : validComposition comp m)
    (hlen : comp.length = 2) (hnoscene : ∀ kv ∈ comp, kv.1 ≠ CMKey.scene) :
    (mkNominalCMStructure comp m).get_actual_cm_section left_edge right_edge = none ∧
    construct_cm_sections [⟨0, 11, 1⟩, ⟨15, 16, 1⟩] [15, 30]
      [mkNominalCMStructure [(CMKey.cm, 4), (CMKey.monolithic_cm, 6)] 2] false =
      ([none], [15, 30, 6]) := by
  constructor
  · rw [NominalCMStructure.get_actual_cm_section,
      if_neg (by simp [mkNominalCMStructure, hlen])]
    exact actualCMLoop_no_scene comp hnoscene 0 left_edge right_edge
  · with_unfolding_all decide

/-- Witness for C10 at the composition `{cm: 4, monolithic_cm: 6}`. -/
theorem claim_C10_two_component_no_scene_returns_none_witness :
    (validComposition [(CMKey.cm, 4), (CMKey.monolithic_cm, 6)] 2 ∧
      ([(CMKey.cm, 4), (CMKey.monolithic_cm, 6)] : List (CMKey × ℚ)).length = 2 ∧
      (∀ kv ∈ ([(CMKey.cm, 4), (CMKey.monolithic_cm, 6)] : List (CMKey × ℚ)),
        kv.1 ≠ CMKey.scene)) ∧
    ((mkNominalCMStructure [(CMKey.cm, 4), (CMKey.monolithic_cm, 6)] 2).get_actual_cm_section
      11 0 = none ∧
    construct_cm_sections [⟨0, 11, 1⟩, ⟨15, 16, 1⟩] [15, 30]
      [mkNominalCMStructure [(CMKey.cm, 4), (CMKey.monolithic_cm, 6)] 2] false =
      ([none], [15, 30, 6])) :=
  ⟨⟨by with_unfolding_all decide, rfl, by with_unfolding_all decide⟩,
    claim_C10_two_component_no_scene_returns_none
      [(CMKey.cm, 4), (CMKey.monolithic_cm, 6)] 2 11 0
      (by with_unfolding_all decide) rfl (by with_unfolding_all decide)⟩

/-- C4: `append_duration` aliases and mutates the receiver.  On the
default unit list `[15, 30]` with `v = 20` the receiver's
`durations_sec` afterwards is `[15, 30, 20]` — changed, not preserved —
although the returned new set does contain `v`.  Consequently the
transient widening inside `construct_cm_sections` (line 369) leaves the
caller-supplied unit list changed after the scan (here `[15, 30, 6]`
after scanning a `{cm: 4, monolithic_cm: 6}` target). -/
theorem claim_C4_append_duration_mutates_receiver :
    (append_duration [15, 30] 20).2 = [15, 30, 20] ∧
    (append_duration [15, 30] 20).2 ≠ [15, 30] ∧
    (20 : ℚ) ∈ (append_duration [15, 30] 20).1 ∧
    (construct_cm_sections [⟨0, 11, 1⟩, ⟨15, 16, 1⟩] [15, 30]
      [mkNominalCMStructure [(CMKey.cm, 4), (CMKey.monolithic_cm, 6)] 2] false).2 ≠
      [15, 30] := by
  with_unfolding_all decide

/-- Loudness sequence for the C5 failing input: zero frames at indices
0, 9, 15 and 39 (silent sections `(0,1)`, `(9,10)`, `(15,16)`,
`(39,40)` at `frame_per_sec = 1` and threshold 0). -/
def loudnessTwoRunW : List ℚ :=
  [0, 1, 1, 1, 1, 1, 1, 1, 1, 0, 1, 1, 1, 1, 1, 0, 1, 1, 1, 1, 1, 1, 1, 1, 1, 1, 1,
    1, 1, 1, 1, 1, 1, 1, 1, 1, 1, 1, 1, 0, 1]

/-- Structures for the C5 failing input: a plain `{cm: 9}` block then a
monolithic `{monolithic_cm: 20}` block, both with margin 2. -/
def cmStructuresTwoRunW : List NominalCMStructure :=
  [mkNominalCMStructure [(CMKey.cm, 9)] 2,
    mkNominalCMStructure [(CMKey.monolithic_cm, 20)] 2]

/-- C5: running the pipeline twice in sequence on the same loudness
sequence and the same configuration is not idempotent when a target
structure contains `monolithic_cm`: the first run emits
`[(0,1), (9,40)]` but mutates the shared `durations_sec` list to
`[15, 30, 20, 20]` (aliasing in `append_duration`), and the second run
over that mutated, unsorted list (whose last element `20` is no longer
the maximum, so the classifier's stop condition fires early) emits only
`[(0,40)]`. -/
theorem claim_C5_second_run_differs :
    (construct_program_scenes loudnessTwoRunW 0 1 [15, 30] cmStructuresTwoRunW 0 false).1 =
      Except.ok [(0, 1), (9, 40)] ∧
    (construct_program_scenes loudnessTwoRunW 0 1 [15, 30] cmStructuresTwoRunW 0 false).2 =
      [15, 30, 20, 20] ∧
    (construct_program_scenes loudnessTwoRunW 0 1
      (construct_program_scenes loudnessTwoRunW 0 1 [15, 30] cmStructuresTwoRunW 0 false).2
      cmStructuresTwoRunW 0 false).1 = Except.ok [(0, 40)] ∧
    (construct_program_scenes loudnessTwoRunW 0 1 [15, 30] cmStructuresTwoRunW 0 false).1 ≠
      (construct_program_scenes loudnessTwoRunW 0 1
        (construct_program_scenes loudnessTwoRunW 0 1 [15, 30] cmStructuresTwoRunW 0
          false).2
        cmStructuresTwoRunW 0 false).1 := by
  with_unfolding_all decide

/-- The coverage invariant claimed for scene lists: every scene is a
proper interval and the scenes are pairwise non-overlapping (hence
sorted ascending by start time). -/
def scenesSortedDisjoint (scenes : List (ℚ × ℚ)) : Prop :=
  (∀ sc ∈ scenes, sc.1 < sc.2) ∧ List.Pairwise (fun x y : ℚ × ℚ => x.2 ≤ y.1) scenes

instance (scenes : List (ℚ × ℚ)) : Decidable (scenesSortedDisjoint scenes) := by
  unfold scenesSortedDisjoint; infer_instance

/-- Loudness sequence for the C3 counterexample: zero frames at indices
0, 1, 10, 11 and 22 (silent sections `(0,2)`, `(10,12)`, `(22,23)` at
`frame_per_sec = 1` and threshold 0). -/
def loudnessInvertedW : List ℚ :=
  [0, 0, 1, 1, 1, 1, 1, 1, 1, 1, 0, 0, 1, 1, 1, 1, 1, 1, 1, 1, 1, 1, 0, 1]

/-- C3 counterexample: the full pipeline, run on `loudnessInvertedW`
with unit list `[11, 15, 30]` and the single structure
`{cm: 1, scene: 10}` (margin 2), matches the gap `(0,2)...(10,12)` and
resolves it to the inverted commercial interval `(2, 0)` (the declared
10-second scene exceeds the matched gap), so the produced scene list
`[(0,2), (0,23)]` is neither sorted ascending by start nor
non-overlapping. -/
theorem claim_C3_coverage_counterexample :
    (construct_program_scenes loudnessInvertedW 0 1 [11, 15, 30]
      [mkNominalCMStructure [(CMKey.cm, 1), (CMKey.scene, 10)] 2] 0 false).1 =
      Except.ok [(0, 2), (0, 23)] ∧
    ¬ scenesSortedDisjoint [(0, 2), (0, 23)] := by
  with_unfolding_all decide

/-- Proof-side shape of the `generate_scenes` loop output: one scene per
commercial interval, each starting at the previous cursor and ending at
the interval's start. -/
def zipScenes (start_sec : ℚ) : List (ℚ × ℚ) → List (ℚ × ℚ)
  | [] => []
  | sec :: rest => (start_sec, sec.1) :: zipScenes sec.2 rest

/-- The cursor after consuming all commercial intervals. -/
def finalCursor (start_sec : ℚ) : List (ℚ × ℚ) → ℚ
  | [] => start_sec
  | sec :: rest => finalCursor sec.2 rest

theorem generateScenesLoop_eq (cms : List (ℚ × ℚ)) : ∀ start acc,
    generateScenesLoop start cms acc =
      (acc ++ zipScenes start cms, finalCursor start cms) := by
  induction cms with
  | nil => intro start acc; simp [generateScenesLoop, zipScenes, finalCursor]
  | cons c rest ih =>
    intro start acc
    rw [generateScenesLoop, ih, zipScenes, finalCursor]
    simp

theorem finalCursor_eq_getLast (cms : List (ℚ × ℚ)) : ∀ start, cms ≠ [] →
    finalCursor start cms = (cms.getLastD (0, 0)).2 := by
  induction cms with
  | nil => intro start h; exact absurd rfl h
  | cons c rest ih =>
    intro start _
    rw [finalCursor]
    cases rest with
    | nil => simp [finalCursor, List.getLastD]
    | cons r rs =>
      rw [ih c.2 (by simp), List.getLastD_eq_getLast?, List.getLastD_eq_getLast?,
        List.getLast?_cons_cons]

/-- Invariant of the scene construction: when the commercial intervals
are proper, strictly separated in order, start after the cursor and end
before the final boundary `E`, the produced scene list satisfies the
coverage invariant, has one more scene than intervals, starts at the
cursor, and each interval sits exactly between the boundaries of its
two adjacent scenes. -/
theorem scenes_spec (cms : List (ℚ × ℚ)) : ∀ (start E : ℚ),
    (∀ c ∈ cms, c.1 < c.2) →
    List.Chain' (fun x y : ℚ × ℚ => x.2 < y.1) cms →
    (cms = [] ∨ start < (cms.headD (0, 0)).1) →
    finalCursor start cms < E →
    scenesSortedDisjoint (zipScenes start cms ++ [(finalCursor start cms, E)]) ∧
    (zipScenes start cms ++ [(finalCursor start cms, E)]).length = cms.length + 1 ∧
    ((zipScenes start cms ++ [(finalCursor start cms, E)]).getD 0 (0, 0)).1 = start ∧
    (∀ i, i < cms.length →
      ((zipScenes start cms ++ [(finalCursor start cms, E)]).getD i (0, 0)).2 =
        (cms.getD i (0, 0)).1 ∧
      (cms.getD i (0, 0)).2 =
        ((zipScenes start cms ++ [(finalCursor start cms, E)]).getD (i + 1) (0, 0)).1) ∧
    (∀ sc ∈ zipScenes start cms ++ [(finalCursor start cms, E)], start ≤ sc.1) := by
  induction cms with
  | nil =>
    intro start E _ _ _ hE
    simp only [zipScenes, finalCursor, List.nil_append]
    refine ⟨⟨?_, List.pairwise_singleton _ _⟩, rfl, rfl, ?_, ?_⟩
    · intro sc hsc
      rw [List.mem_singleton] at hsc
      rw [hsc]
      exact hE
    · intro i hi
      exact absurd hi (by simp)
    · intro sc hsc
      rw [List.mem_singleton] at hsc
      rw [hsc]
  | cons c rest ih =>
    intro start E hproper hchain hfirst hE
    have hstart : start < c.1 := by
      rcases hfirst with h | h
      · exact absurd h (by simp)
      · simpa using h
    have hc : c.1 < c.2 := hproper c (by simp)
    have hproper2 : ∀ x ∈ rest, x.1 < x.2 := fun x hx => hproper x (by simp [hx])
    have hchain2 : List.Chain' (fun x y : ℚ × ℚ => x.2 < y.1) rest := hchain.tail
    have hfirst2 : rest = [] ∨ c.2 < (rest.headD (0, 0)).1 := by
      cases rest with
      | nil => exact Or.inl rfl
      | cons r rs =>
        refine Or.inr ?_
        have h := List.chain'_cons.mp hchain
        simpa using h.1
    have hE2 : finalCursor c.2 rest < E := by
      simpa [finalCursor] using hE
    obtain ⟨⟨IHproper, IHpw⟩, IHlen, IHhead, IHbetween, IHlb⟩ :=
      ih c.2 E hproper2 hchain2 hfirst2 hE2
    simp only [zipScenes, finalCursor, List.cons_append]
    refine ⟨⟨?_, ?_⟩, ?_, ?_, ?_, ?_⟩
    · intro sc hsc
      rcases List.mem_cons.mp hsc with h | h
      · rw [h]
        exact hstart
      · exact IHproper sc h
    · rw [List.pairwise_cons]
      refine ⟨?_, IHpw⟩
      intro y hy
      have h1 := IHlb y hy
      have : c.1 < c.2 := hc
      simp only
      linarith
    · simp only [List.length_cons, IHlen]
    · rw [List.getD_cons_zero]
    · intro i hi
      cases i with
      | zero =>
        constructor
        · rw [List.getD_cons_zero, List.getD_cons_zero]
        · rw [List.getD_cons_zero, List.getD_cons_succ]
          exact IHhead.symm
      | succ i =>
        have hi2 : i < rest.length := by simpa using hi
        obtain ⟨hb1, hb2⟩ := IHbetween i hi2
        constructor
        · rw [List.getD_cons_succ, List.getD_cons_succ]
          exact hb1
        · rw [List.getD_cons_succ, List.getD_cons_succ]
          exact hb2
    · intro sc hsc
      rcases List.mem_cons.mp hsc with h | h
      · rw [h]
      · have := IHlb sc h
        linarith

/-- C3 amended: `generate_scenes` satisfies the coverage invariant —
scenes pairwise non-overlapping and sorted ascending by start, each
commercial interval lying exactly between the boundaries of its two
adjacent scenes — provided the matcher's commercial intervals are
proper, strictly separated in increasing order, begin after the opening
cursor, the trailing duration is non-negative, and (when the detected
tail is used) the final boundary lies beyond the last interval.  The
full pipeline does not guarantee these preconditions (see the
counterexample). -/
theorem claim_C3_coverage_of_ordered_cms (first last_end dur : ℚ) (cms : List (ℚ × ℚ))
    (hproper : ∀ c ∈ cms, c.1 < c.2)
    (hchain : List.Chain' (fun x y : ℚ × ℚ => x.2 < y.1) cms)
    (hfirst : cms = [] ∨
      (if first < starting_range_sec then first else 0) < (cms.headD (0, 0)).1)
    (hdur : 0 ≤ dur)
    (hlast : dur = 0 →
      (cms = [] → (if first < starting_range_sec then first else 0) < last_end) ∧
      (cms ≠ [] → (cms.getLastD (0, 0)).2 < last_end)) :
    scenesSortedDisjoint (generate_scenes first last_end cms dur) ∧
    (generate_scenes first last_end cms dur).length = cms.length + 1 ∧
    (∀ i, i < cms.length →
      ((generate_scenes first last_end cms dur).getD i (0, 0)).2 = (cms.getD i (0, 0)).1 ∧
      (cms.getD i (0, 0)).2 =
        ((generate_scenes first last_end cms dur).getD (i + 1) (0, 0)).1) := by
  set s0 : ℚ := if first < starting_range_sec then first else 0 with hs0
  set E : ℚ := if dur ≠ 0 then finalCursor s0 cms + dur + end_margin_sec else last_end
    with hEdef
  have hgen : generate_scenes first last_end cms dur =
      zipScenes s0 cms ++ [(finalCursor s0 cms, E)] := by
    by_cases hd : dur ≠ 0
    · simp [generate_scenes, generateScenesLoop_eq, hEdef, hd, ← hs0]
    · simp [generate_scenes, generateScenesLoop_eq, hEdef, hd, ← hs0]
  have hE : finalCursor s0 cms < E := by
    rw [hEdef]
    by_cases hd : dur ≠ 0
    · rw [if_pos hd]
      have hpos : 0 < dur := lt_of_le_of_ne hdur (Ne.symm hd)
      have hm : end_margin_sec = 1 := rfl
      rw [hm]
      linarith
    · rw [if_neg hd]
      push_neg at hd
      obtain ⟨h1, h2⟩ := hlast hd
      by_cases hcm : cms = []
      · rw [hcm]
        simp only [finalCursor]
        exact h1 hcm
      · rw [finalCursor_eq_getLast cms s0 hcm]
        exact h2 hcm
  obtain ⟨h1, h2, _, h4, _⟩ := scenes_spec cms s0 E hproper hchain hfirst hE
  rw [hgen]
  exact ⟨h1, h2, h4⟩

/-- Witness for the amended C3 at the first literal test case of
`generate_scenes`. -/
theorem claim_C3_coverage_of_ordered_cms_witness :
    ((∀ c ∈ [((5 : ℚ), (10 : ℚ)), (12, 15)], c.1 < c.2) ∧
      List.Chain' (fun x y : ℚ × ℚ => x.2 < y.1) [((5 : ℚ), (10 : ℚ)), (12, 15)] ∧
      ([((5 : ℚ), (10 : ℚ)), (12, 15)] = [] ∨
        (if (3 : ℚ) < starting_range_sec then (3 : ℚ) else 0) <
          ([((5 : ℚ), (10 : ℚ)), (12, 15)].headD (0, 0)).1) ∧
      (0 : ℚ) ≤ 5 ∧
      ((5 : ℚ) = 0 →
        ([((5 : ℚ), (10 : ℚ)), (12, 15)] = [] →
          (if (3 : ℚ) < starting_range_sec then (3 : ℚ) else 0) < 20) ∧
        ([((5 : ℚ), (10 : ℚ)), (12, 15)] ≠ [] →
          ([((5 : ℚ), (10 : ℚ)), (12, 15)].getLastD (0, 0)).2 < 20))) ∧
    (scenesSortedDisjoint (generate_scenes 3 20 [(5, 10), (12, 15)] 5) ∧
      (generate_scenes 3 20 [(5, 10), (12, 15)] 5).length =
        [((5 : ℚ), (10 : ℚ)), (12, 15)].length + 1 ∧
      (∀ i, i < [((5 : ℚ), (10 : ℚ)), (12, 15)].length →
        ((generate_scenes 3 20 [(5, 10), (12, 15)] 5).getD i (0, 0)).2 =
          ([((5 : ℚ), (10 : ℚ)), (12, 15)].getD i (0, 0)).1 ∧
        ([((5 : ℚ), (10 : ℚ)), (12, 15)].getD i (0, 0)).2 =
          ((generate_scenes 3 20 [(5, 10), (12, 15)] 5).getD (i + 1) (0, 0)).1)) :=
  ⟨⟨by with_unfolding_all decide,
      List.chain'_cons.mpr ⟨by with_unfolding_all decide, List.chain'_singleton _⟩,
      by with_unfolding_all decide, by with_unfolding_all decide,
      by with_unfolding_all decide⟩,
    claim_C3_coverage_of_ordered_cms 3 20 5 [(5, 10), (12, 15)]
      (by with_unfolding_all decide)
      (List.chain'_cons.mpr ⟨by with_unfolding_all decide, List.chain'_singleton _⟩)
      (by with_unfolding_all decide) (by with_unfolding_all decide)
      (by with_unfolding_all decide)⟩
